import Mathlib

/-!
Verification development for the milodocs documentation-site toolchain.

The central component is the OpenAPI spec flattener in
src/tools/spec-preprocessor.py: a reference-resolution pass followed by a
depth-first walk (insert_circular_reference_stubs) that replaces nodes whose
identity already occurs on the current root-to-node path with a stub mapping.
Python object graphs with identity are modelled, as the specification itself
suggests, by an explicit arena of nodes addressed by integer index; machine
identity (the Python id function) becomes the arena index.  The walk is given
fuel so that it is a total executable Lean function; a run of the Python
program that recurses forever corresponds to the model returning none for
every amount of fuel.

Also modelled: the CLI run skeleton of preprocess_openapi_spec (file-extension
dispatch and the order of effects on the output file), the serializer calls,
the frontmatter updater (src/tools/update-prod-release-frontmatter.py), the
supported-release table updater
(src/exampleSite/tools/update-supported-release-table.py), and the two
serverless HTTP handlers under src/exampleSite/tools/ask-docs/.
-/

namespace MiloDocs

/-- Scalar payloads of a YAML/JSON document node: string, number, bool, null.
Numbers are modelled as integers; no claim depends on float behaviour. -/
inductive SVal where
  | str (s : String)
  | int (n : Int)
  | bool (b : Bool)
  | null
deriving DecidableEq, Repr

/-- A document value tree: the result of parsing YAML or JSON, and the value
written by serialization.  Mapping entries are ordered, as in Python dicts. -/
inductive Doc where
  | map (entries : List (String × Doc))
  | seq (items : List Doc)
  | scalar (v : SVal)
deriving Repr

/-- A node of an object graph with identity: children are arena indices
(the model of Python object ids), so distinct nodes may share children and
a node may (transitively) contain itself, exactly as the object graph
produced by jsonref reference substitution can. -/
inductive Node where
  | map (entries : List (String × Nat))
  | seq (items : List Nat)
  | scalar (v : SVal)
deriving DecidableEq, Repr

/-- An object graph: the arena.  Index i refers to the node at position i. -/
abbrev Graph := List Node

mutual

/-- Number of nodes of a document tree (used as a sufficient fuel bound). -/
def sizeD : Doc → Nat
  | .map es => 1 + sizeEntries es
  | .seq xs => 1 + sizeItems xs
  | .scalar _ => 1

/-- Size of a list of mapping entries. -/
def sizeEntries : List (String × Doc) → Nat
  | [] => 0
  | (_, d) :: rest => 1 + sizeD d + sizeEntries rest

/-- Size of a list of sequence items. -/
def sizeItems : List Doc → Nat
  | [] => 0
  | d :: rest => 1 + sizeD d + sizeItems rest

end

/-- The stub emitted for a detected circular reference, from
src/tools/spec-preprocessor.py lines 16-17: a mapping with the two keys
listed there, name being the key recorded in the visited map. -/
def stubDoc (name : String) : Doc :=
  Doc.map [("$ref", Doc.scalar (SVal.str ("#/components/schemas/" ++ name))),
           ("description",
            Doc.scalar (SVal.str "Circular reference; see the component mentioned in $ref"))]

/-- Option-valued map over mapping entries: child results are combined in
order and any failure aborts, mirroring that a Python recursion that does not
return propagates through the comprehension building the parent. -/
def mapEntriesOpt (f : String → Nat → Option Doc) :
    List (String × Nat) → Option (List (String × Doc))
  | [] => some []
  | (k, j) :: rest =>
    match f k j, mapEntriesOpt f rest with
    | some d, some ds => some ((k, d) :: ds)
    | _, _ => none

/-- Option-valued map over sequence items. -/
def mapItemsOpt (f : Nat → Option Doc) : List Nat → Option (List Doc)
  | [] => some []
  | j :: rest =>
    match f j, mapItemsOpt f rest with
    | some d, some ds => some (d :: ds)
    | _, _ => none

/-- Model of insert_circular_reference_stubs (src/tools/spec-preprocessor.py
lines 7-28) over the arena graph g.  The argument visited is the dictionary
from node identity to the mapping key under which that ancestor was last
descended into; obj_id in visited becomes List.lookup i visited.  A dict node
first checks the visited map, then for each entry (k, v) recurses with
visited extended by (i, k) - the Python code sets visited[obj_id] = k and
passes visited.copy(), and i cannot already be a key because the function
returned the stub in that case.  A list node recurses into items with the
same visited map: the Python code never records a list identity.  Any other
object is returned unchanged.  The path parameter of the Python function is
written to but never read, so it is omitted.  Fuel bounds the recursion
depth; none models a Python run that exceeds every recursion depth. -/
def insert_circular_reference_stubs (g : Graph) :
    Nat → Nat → List (Nat × String) → Option Doc
  | 0, _, _ => none
  | fuel + 1, i, visited =>
    match List.lookup i visited with
    | some name => some (stubDoc name)
    | none =>
      match g.get? i with
      | none => none
      | some (Node.map es) =>
        (mapEntriesOpt (fun k j =>
          insert_circular_reference_stubs g fuel j ((i, k) :: visited)) es).map Doc.map
      | some (Node.seq xs) =>
        (mapItemsOpt (fun j =>
          insert_circular_reference_stubs g fuel j visited) xs).map Doc.seq
      | some (Node.scalar v) => some (Doc.scalar v)

/-- Full expansion of an arena graph into a value tree, with no cycle
detection: the reference behaviour that the stub walk is supposed to agree
with on acyclic graphs. -/
def expandAll (g : Graph) : Nat → Nat → Option Doc
  | 0, _ => none
  | fuel + 1, i =>
    match g.get? i with
    | none => none
    | some (Node.map es) =>
      (mapEntriesOpt (fun _ j => expandAll g fuel j) es).map Doc.map
    | some (Node.seq xs) =>
      (mapItemsOpt (fun j => expandAll g fuel j) xs).map Doc.seq
    | some (Node.scalar v) => some (Doc.scalar v)

/-- The walk terminates on node i of graph g when some amount of fuel
suffices; since each unit of fuel pays for one level of recursion, this is
exactly termination of the Python recursion. -/
def StubWalkTerminates (g : Graph) (i : Nat) : Prop :=
  ∃ fuel, (insert_circular_reference_stubs g fuel i []).isSome

/-- Recognizer for the exact stub shape emitted by the walk. -/
def isStubDoc : Doc → Bool
  | .map [(k1, .scalar (.str _)), (k2, .scalar (.str s))] =>
    k1 == "$ref" && k2 == "description" &&
      s == "Circular reference; see the component mentioned in $ref"
  | _ => false

mutual

/-- Number of circular-reference stubs occurring in a document tree. -/
def countStubs (d : Doc) : Nat :=
  if isStubDoc d then 1
  else
    match d with
    | .map es => countStubsEntries es
    | .seq xs => countStubsItems xs
    | .scalar _ => 0

/-- Stub count over mapping entries. -/
def countStubsEntries : List (String × Doc) → Nat
  | [] => 0
  | (_, d) :: rest => countStubs d + countStubsEntries rest

/-- Stub count over sequence items. -/
def countStubsItems : List Doc → Nat
  | [] => 0
  | d :: rest => countStubs d + countStubsItems rest

end

/-- Child indices of an arena node. -/
def childIds : Node → List Nat
  | .map es => es.map (·.2)
  | .seq xs => xs
  | .scalar _ => []

/-- A rank function witnessing that the graph is acyclic: every edge strictly
decreases the rank.  This is the arena form, suggested by the specification
itself, of the statement that no node is reachable from itself. -/
def RankedBy (g : Graph) (rank : Nat → Nat) : Prop :=
  ∀ i, i < g.length →
    ∀ j ∈ childIds (g.getD i (Node.scalar SVal.null)), rank j < rank i

/-- Executable check of RankedBy on a concrete graph. -/
def rankedByB (g : Graph) (rank : Nat → Nat) : Bool :=
  (List.range g.length).all fun i =>
    (childIds (g.getD i (Node.scalar SVal.null))).all fun j => decide (rank j < rank i)

/-- Key under which ring node i points to its successor. -/
def ringKey (i : Nat) : String := "n" ++ toString i

/-- The canonical mapping cycle of length n: nodes 0 .. n-1, node i being a
dict with the single entry (ringKey i, (i+1) mod n).  For n = 1 this is a
node referencing itself. -/
def ringGraph (n : Nat) : Graph :=
  (List.range n).map fun i => Node.map [(ringKey i, (i + 1) % n)]

/-- Expected output of the stub walk on a ring, m nodes still to unfold
starting at index i: nested single-entry mappings ending in the stub for
node 0, which is recorded in the visited map under ringKey 0. -/
def ringDoc : Nat → Nat → Doc
  | 0, _ => stubDoc (ringKey 0)
  | m + 1, i => Doc.map [(ringKey i, ringDoc m (i + 1))]

/-- Visited map of the walk upon arriving at ring node i: ancestors i-1, ...,
0 in most-recent-first order, each under the key by which it was left. -/
def ringVis (i : Nat) : List (Nat × String) :=
  ((List.range i).reverse).map fun j => (j, ringKey j)

/-- A cycle of length 1 passing only through a sequence node: node 0 is a
list whose single item is node 0 itself.  Such a graph arises from resolving
a document in which a schema defined as an array contains a reference back to
itself. -/
def seqLoopGraph : Graph := [Node.seq [0]]

/-- Acyclic diamond graph: the root reaches node 3 (the shared node X, a
mapping containing one scalar) via two non-overlapping branches 1 and 2. -/
def diamondGraph : Graph :=
  [Node.map [("left", 1), ("right", 2)],
   Node.map [("a", 3)],
   Node.map [("b", 3)],
   Node.map [("x", 4)],
   Node.scalar (SVal.str "v")]

/-- Rank function witnessing that diamondGraph is acyclic. -/
def diamondRank (i : Nat) : Nat := [3, 2, 2, 1, 0].getD i 0

/-! ### Reference resolution

Modelled from the spec: the reference-resolution pass (section 4.1) is
performed in the source by the third-party library call
jsonref.JsonRef.replace_refs (src/tools/spec-preprocessor.py line 44), whose
code is not part of this repository.  Following the specification: a
Reference Pointer is a Mapping containing the single key, dollar-ref, whose
value is a path string such as a fragment path into the same document; the
pass returns a new Document in which every Reference Pointer is replaced by
the subtree it points to, recursively, failing when a path does not resolve.
Fuel bounds the number of pointer hops plus tree depth; running out of fuel
models the accepted risk that this pass does not terminate on cycles. -/

/-- Splitting a character list at every occurrence of a separator, with an
accumulator for the current segment (in reverse). -/
def splitOnCharAux (sep : Char) : List Char → List Char → List (List Char)
  | [], acc => [acc.reverse]
  | c :: rest, acc =>
    if c = sep then acc.reverse :: splitOnCharAux sep rest []
    else splitOnCharAux sep rest (c :: acc)

/-- Split a character list on a separator character. -/
def splitOnChar (sep : Char) (cs : List Char) : List (List Char) :=
  splitOnCharAux sep cs []

/-- Parse a nonempty run of digits as a number. -/
def parseNatAux : List Char → Nat → Nat
  | [], n => n
  | c :: rest, n => parseNatAux rest (n * 10 + (c.toNat - 48))

/-- Parse a character list as a natural number, as int() does on a clean
digit string. -/
def parseNat? (cs : List Char) : Option Nat :=
  if cs.isEmpty then none
  else if cs.all Char.isDigit then some (parseNatAux cs 0) else none

/-- Modelled from the spec: path navigation for the document-internal
fragment paths of section 3 (for example a path naming a component schema):
each segment selects a mapping key, or an index into a sequence. -/
def navigate : List String → Doc → Option Doc
  | [], d => some d
  | s :: rest, .map es => (List.lookup s es).bind (navigate rest)
  | s :: rest, .seq xs => ((parseNat? s.data).bind (fun n => xs.get? n)).bind (navigate rest)
  | _ :: _, .scalar _ => none

/-- Modelled from the spec: resolution of a whole path string, which must be
a fragment (hash mark, then slash-separated segments) into the root. -/
def lookupPath (root : Doc) (p : String) : Option Doc :=
  match (splitOnChar '/' p.data).map String.mk with
  | "#" :: segs => navigate segs root
  | _ => none

/-- Modelled from the spec: recognizer for a Reference Pointer, which per
section 3 is a Mapping node with a single recognized key whose value is a
path string; returns that path. -/
def isRefNode : Doc → Option String
  | .map [(k, .scalar (.str p))] => if k == "$ref" then some p else none
  | _ => none

/-- Resolution failure: an unresolvable pointer path, or out of fuel (the
modelled form of the pass not terminating on a cyclic document). -/
inductive RErr where
  | unresolvable
  | outOfFuel
deriving DecidableEq, Repr

/-- Error-propagating map over mapping entries, children in order. -/
def mapEntriesE (f : Doc → Except RErr Doc) :
    List (String × Doc) → Except RErr (List (String × Doc))
  | [] => .ok []
  | (k, v) :: rest =>
    match f v, mapEntriesE f rest with
    | .ok d, .ok ds => .ok ((k, d) :: ds)
    | .error e, _ => .error e
    | .ok _, .error e => .error e

/-- Error-propagating map over sequence items. -/
def mapItemsE (f : Doc → Except RErr Doc) : List Doc → Except RErr (List Doc)
  | [] => .ok []
  | v :: rest =>
    match f v, mapItemsE f rest with
    | .ok d, .ok ds => .ok (d :: ds)
    | .error e, _ => .error e
    | .ok _, .error e => .error e

/-- Modelled from the spec: the reference-resolution pass of section 4.1
(jsonref.JsonRef.replace_refs in the source, a third-party library).  Every
Reference Pointer is replaced by the resolution of its target; other
mappings and sequences are rebuilt with resolved children; scalars are
unchanged.  One unit of fuel is spent per step. -/
def replace_refs (root : Doc) : Nat → Doc → Except RErr Doc
  | 0, _ => .error RErr.outOfFuel
  | fuel + 1, d =>
    match isRefNode d with
    | some p =>
      match lookupPath root p with
      | none => .error RErr.unresolvable
      | some t => replace_refs root fuel t
    | none =>
      match d with
      | .map es => (mapEntriesE (fun v => replace_refs root fuel v) es).map Doc.map
      | .seq xs => (mapItemsE (fun v => replace_refs root fuel v) xs).map Doc.seq
      | .scalar v => .ok (.scalar v)

mutual

/-- True when the document tree contains no Reference Pointer. -/
def noRefs : Doc → Bool
  | .map es => (isRefNode (.map es)).isNone && noRefsEntries es
  | .seq xs => noRefsItems xs
  | .scalar _ => true

/-- noRefs over mapping entries. -/
def noRefsEntries : List (String × Doc) → Bool
  | [] => true
  | (_, d) :: rest => noRefs d && noRefsEntries rest

/-- noRefs over sequence items. -/
def noRefsItems : List Doc → Bool
  | [] => true
  | d :: rest => noRefs d && noRefsItems rest

end

mutual

/-- Load a value tree into an arena, assigning identities in postorder:
children receive smaller indices than their parent, and every subtree gets a
fresh identity, exactly the identity structure of a freshly parsed document
(no sharing).  Returns the root index and the extended arena. -/
def toA : Doc → Graph → Nat × Graph
  | .scalar v, a => (a.length, a ++ [Node.scalar v])
  | .map es, a =>
    let pa := toAEntries es a
    (pa.2.length, pa.2 ++ [Node.map pa.1])
  | .seq xs, a =>
    let pa := toAItems xs a
    (pa.2.length, pa.2 ++ [Node.seq pa.1])

/-- Arena loading of mapping entries. -/
def toAEntries : List (String × Doc) → Graph → List (String × Nat) × Graph
  | [], a => ([], a)
  | (k, d) :: rest, a =>
    let ia := toA d a
    let pa := toAEntries rest ia.2
    ((k, ia.1) :: pa.1, pa.2)

/-- Arena loading of sequence items. -/
def toAItems : List Doc → Graph → List Nat × Graph
  | [], a => ([], a)
  | d :: rest, a =>
    let ia := toA d a
    let pa := toAItems rest ia.2
    (ia.1 :: pa.1, pa.2)

end

/-- The stub walk applied to a freshly parsed (hence sharing-free) document
value: load the tree into an arena and walk it from the root with an empty
visited map, with enough fuel for its depth. -/
def runWalkTree (d : Doc) : Option Doc :=
  insert_circular_reference_stubs (toA d []).2 (sizeD d) (toA d []).1 []

/-- The flatten pipeline of preprocess_openapi_spec (lines 43-47): resolve
references, then insert circular-reference stubs.  On the acyclic documents
this development applies it to, the value produced by the Python walk over
the resolved object graph equals the walk over the value tree (the walk
inserts no stub on acyclic graphs, see the claim about diamonds), so the
walk input is modelled as the resolved value tree. -/
def flattenPipe (fuel : Nat) (d : Doc) : Option Doc :=
  match replace_refs d fuel d with
  | .ok r => runWalkTree r
  | .error _ => none

/-- An acyclic document on which flattening is not idempotent: the mapping
under key a has the single key dollar-ref, but its value is a mapping (not a
path string), so it is not a Reference Pointer; resolving that inner value
turns it into one. -/
def idemCexDoc : Doc :=
  Doc.map [("a", Doc.map [("$ref", Doc.map [("$ref", Doc.scalar (SVal.str "#/b"))])]),
           ("b", Doc.scalar (SVal.str "#/c")),
           ("c", Doc.scalar (SVal.str "hello"))]

/-- The first flattening of idemCexDoc: a fresh Reference Pointer appears
under key a. -/
def idemCexOnce : Doc :=
  Doc.map [("a", Doc.map [("$ref", Doc.scalar (SVal.str "#/c"))]),
           ("b", Doc.scalar (SVal.str "#/c")),
           ("c", Doc.scalar (SVal.str "hello"))]

/-- The second flattening of idemCexDoc: the fresh pointer resolves away. -/
def idemCexTwice : Doc :=
  Doc.map [("a", Doc.scalar (SVal.str "hello")),
           ("b", Doc.scalar (SVal.str "#/c")),
           ("c", Doc.scalar (SVal.str "hello"))]

/-! ### The CLI run of preprocess_openapi_spec -/

/-- Index of the last occurrence of a character in a character list. -/
def lastIndexOf (c : Char) (cs : List Char) : Option Nat :=
  ((cs.enum.filter (fun p => p.2 == c)).map (fun p => p.1)).getLast?

/-- Model of os.path.splitext (CPython genericpath, posix separator): the
extension starts at the last dot, provided that dot lies after the last
slash and at least one character of the basename before it is not a dot. -/
def splitext (p : String) : String × String :=
  let cs := p.data
  match lastIndexOf '.' cs with
  | none => (p, "")
  | some d =>
    let fstart := match lastIndexOf '/' cs with
      | none => 0
      | some s => s + 1
    if decide (fstart ≤ d) && ((cs.drop fstart).take (d - fstart)).any (fun ch => ch != '.') then
      (String.mk (cs.take d), String.mk (cs.drop d))
    else (p, "")

/-- Model of the str.lower method on the ASCII file extensions involved. -/
def pyLower (s : String) : String := String.mk (s.data.map Char.toLower)

/-- Model of the str.upper method. -/
def pyUpper (s : String) : String := String.mk (s.data.map Char.toUpper)

/-- Model of the str.strip method with no argument: remove whitespace from
both ends. -/
def pyStrip (s : String) : String :=
  String.mk (((s.data.dropWhile Char.isWhitespace).reverse.dropWhile Char.isWhitespace).reverse)

/-- The input extensions accepted by preprocess_openapi_spec lines 36-38
(after lowering). -/
def supportedInputExt (e : String) : Bool :=
  e == ".yml" || e == ".yaml" || e == ".json"

/-- The errors preprocess_openapi_spec can raise: the two ValueErrors of
lines 41 and 57 and the resolution error of the reference pass. -/
inductive PErr where
  | unsupportedInput
  | unresolvableRef
  | unsupportedOutput
deriving DecidableEq, Repr

/-- Observable outcome of one run of preprocess_openapi_spec: the result,
whether open(output_file_path, w) was executed - which creates the file or
truncates an existing one - and the document written if a dump completed. -/
structure RunOutcome where
  result : Except PErr Unit
  outputOpened : Bool
  outputWritten : Option Doc

/-- Model of preprocess_openapi_spec (src/tools/spec-preprocessor.py lines
30-57), with the parsed input document supplied (the YAML/JSON parser is an
external collaborator).  Control flow in source order: split the input
extension and lower it; on an unsupported input extension raise before
touching the output; resolve references; walk in the stubs; split the output
extension; open the output file for writing - truncating it - and only then
dispatch on the output extension, raising inside the with block when it is
unsupported.  The result none models a run that does not terminate (fuel
exhaustion in resolution or the walk). -/
def preprocess_openapi_spec (inPath outPath : String) (parsed : Doc) (fuel : Nat) :
    Option RunOutcome :=
  if supportedInputExt (pyLower (splitext inPath).2) then
    match replace_refs parsed fuel parsed with
    | .error RErr.unresolvable => some ⟨.error PErr.unresolvableRef, false, none⟩
    | .error RErr.outOfFuel => none
    | .ok r =>
      match runWalkTree r with
      | none => none
      | some processed =>
        if pyLower (splitext outPath).2 == ".json" then
          some ⟨.ok (), true, some processed⟩
        else if pyLower (splitext outPath).2 == ".yml" ||
            pyLower (splitext outPath).2 == ".yaml" then
          some ⟨.ok (), true, some processed⟩
        else some ⟨.error PErr.unsupportedOutput, true, none⟩
  else some ⟨.error PErr.unsupportedInput, false, none⟩

/-! ### Serialization key order -/

/-- Lexicographic code-point comparison of keys, the order Python string
comparison uses when the serializer sorts mapping items. -/
def keyLt : List Char → List Char → Bool
  | [], [] => false
  | [], _ :: _ => true
  | _ :: _, [] => false
  | a :: as, b :: bs =>
    if a.toNat < b.toNat then true
    else if b.toNat < a.toNat then false
    else keyLt as bs

/-- Insertion into a key-sorted entry list, by code-point string order. -/
def insertByKey (p : String × Doc) : List (String × Doc) → List (String × Doc)
  | [] => [p]
  | q :: rest => if keyLt p.1.data q.1.data then p :: q :: rest else q :: insertByKey p rest

/-- Insertion sort of mapping entries by key. -/
def isortEntries : List (String × Doc) → List (String × Doc)
  | [] => []
  | p :: rest => insertByKey p (isortEntries rest)

mutual

/-- A document with every mapping's entries re-ordered alphabetically. -/
def sortKeysDoc : Doc → Doc
  | .map es => .map (isortEntries (sortKeysEntries es))
  | .seq xs => .seq (sortKeysItems xs)
  | .scalar v => .scalar v

/-- Recursive key sorting below each entry value. -/
def sortKeysEntries : List (String × Doc) → List (String × Doc)
  | [] => []
  | (k, d) :: rest => (k, sortKeysDoc d) :: sortKeysEntries rest

/-- Recursive key sorting below each item. -/
def sortKeysItems : List Doc → List Doc
  | [] => []
  | d :: rest => sortKeysDoc d :: sortKeysItems rest

end

/-- Modelled from the spec: the document sink serializer (section 6) is the
third-party yaml.dump, invoked at src/tools/spec-preprocessor.py line 55
with allow_unicode set and default_flow_style off but with no sort_keys
argument.  The serializer interface sorts mapping keys alphabetically unless
sort_keys is passed as false, so this call emits the document with every
mapping's keys sorted.  Only key order is modelled; scalars and structure
pass through. -/
def yaml_dump_line55 (d : Doc) : Doc := sortKeysDoc d

/-- Modelled from the spec: the json.dump call at line 53 with indent 2.
Its serializer interface preserves mapping insertion order (its key sorting
is off unless requested, and the source requests nothing).  Only key order
is modelled. -/
def json_dump_line53 (d : Doc) : Doc := d

/-! ### update-prod-release-frontmatter.py -/

/-- Setting a key in an ordered mapping as a Python dict assignment does:
an existing key keeps its position and gets the new value, a new key is
appended at the end. -/
def setKey : List (String × Doc) → String → Doc → List (String × Doc)
  | [], k, v => [(k, v)]
  | (k', v') :: rest, k, v =>
    if k' == k then (k, v) :: rest else (k', v') :: setKey rest k v

/-- The ways update_frontmatter can fail to return: the sys.exit(1) of line
24 when the frontmatter has no cascade section, or the TypeError a dict
assignment raises when the cascade value is not a mapping. -/
inductive FmErr where
  | exitOne
  | typeError
deriving DecidableEq, Repr

/-- Model of update_frontmatter (src/tools/update-prod-release-frontmatter.py
lines 14-25): if the frontmatter has a cascade mapping, assign its major,
minor, patch and latest entries in that order and return the frontmatter;
otherwise print a message and exit with code 1. -/
def update_frontmatter (fm : List (String × Doc)) (major minor patch : Int) :
    Except FmErr (List (String × Doc)) :=
  match List.lookup "cascade" fm with
  | some (Doc.map c) =>
    .ok (setKey fm "cascade" (Doc.map
      (setKey (setKey (setKey (setKey c "major" (.scalar (.int major)))
        "minor" (.scalar (.int minor))) "patch" (.scalar (.int patch)))
        "latest" (.scalar (.bool true)))))
  | some _ => .error FmErr.typeError
  | none => .error FmErr.exitOne

/-- The write phase of main (lines 58-62): the index file is rewritten only
after update_frontmatter returns; when it exits, nothing is written.  The
value is the frontmatter serialized into the rewritten file, none meaning
the file is untouched. -/
def frontmatterMainWrite (fm : List (String × Doc)) (major minor patch : Int) :
    Option (List (String × Doc)) :=
  (update_frontmatter fm major minor patch).toOption

/-! ### update-supported-release-table.py -/

/-- A CSV row. -/
abbrev Row := List String

/-- Model of row[i] with the IndexError a short row raises. -/
def col (r : Row) (i : Nat) : Except Unit String :=
  match r.get? i with
  | some s => .ok s
  | none => .error ()

/-- A nonempty all-digit character run. -/
def isNatStr (cs : List Char) : Bool :=
  !cs.isEmpty && cs.all Char.isDigit

/-- Model of normalize_version (lines 6-11): a version of the shape three
dot-separated runs of digits becomes major.minor.X; anything else is
returned unchanged.  The regex anchors on both sides, so the match succeeds
exactly when splitting on dots yields three nonempty digit runs. -/
def normalize_version (version : String) : String :=
  match splitOnChar '.' version.data with
  | [a, b, c] =>
    if isNatStr a && isNatStr b && isNatStr c then
      String.mk a ++ "." ++ String.mk b ++ ".X"
    else version
  | _ => version

/-- The shape the script guarantees for the version it goes on to use: the
argument is uppercased at line 19, normalized, and then required by the line
22 regex to be digits, dot, digits, dot, X (the regex ignores case but a
lowercase x cannot survive line 19).  Stated over the character list so that
character-class facts are available. -/
def isNormVersion (v : String) : Bool :=
  match v.data.dropWhile Char.isDigit with
  | '.' :: r2 =>
    !(v.data.takeWhile Char.isDigit).isEmpty &&
      !(r2.takeWhile Char.isDigit).isEmpty &&
      (r2.dropWhile Char.isDigit == ['.', 'X'])
  | _ => false

/-- The duplicate scan of lines 41-44: first row whose first column,
stripped and uppercased, equals the version ends the program; a row with no
column 0 raises IndexError first. -/
def findDup (version : String) : List Row → Except Unit Bool
  | [] => .ok false
  | r :: rest =>
    match col r 0 with
    | .error _ => .error ()
    | .ok c0 =>
      if pyUpper (pyStrip c0) == version then .ok true else findDup version rest

/-- The support-flag update of lines 47-50, operating on the reversed tail:
walk from the last row towards the header, and set column 2 of the first row
whose column 2 strips and uppercases to YES to NO, leaving the rest alone. -/
def flipLastYesRev : List Row → Except Unit (List Row)
  | [] => .ok []
  | r :: rest =>
    match col r 2 with
    | .error _ => .error ()
    | .ok c2 =>
      if pyUpper (pyStrip c2) == "YES" then .ok (r.set 2 "NO" :: rest)
      else (flipLastYesRev rest).map (r :: ·)

/-- Python list.insert(1, x): after the first element, or at the end of a
shorter list. -/
def insertAt1 (rows : List Row) (r : Row) : List Row :=
  match rows with
  | [] => [r]
  | h :: t => h :: r :: t

/-- Reattach the header to an updated tail. -/
def reassemble (rows : List Row) (newTail : List Row) : List Row :=
  match rows with
  | [] => []
  | h :: _ => h :: newTail

/-- Outcome of the table script: normal exit with code and the rows written
(none when the file was not rewritten), or an uncaught IndexError. -/
inductive TableOutcome where
  | exited (code : Nat) (written : Option (List Row))
  | crashed
deriving DecidableEq, Repr

/-- Model of the table-updating part of main
(src/exampleSite/tools/update-supported-release-table.py lines 40-58), after
the version has been normalized and validated: scan every row, header
included, for a duplicate of the version and exit 0 untouched if found; else
flip the last supported row to NO, insert the new version row at position 1,
and rewrite the file. -/
def update_supported_release_table (rows : List Row) (version : String) : TableOutcome :=
  match findDup version rows with
  | .error _ => .crashed
  | .ok true => .exited 0 none
  | .ok false =>
    match flipLastYesRev rows.tail.reverse with
    | .error _ => .crashed
    | .ok revTail =>
      .exited 0 (some (insertAt1 (reassemble rows revTail.reverse) [version, "GA", "YES"]))

/-! ### The serverless HTTP handlers -/

/-- The slice of an HTTP request the handlers read: the method, the parsed
JSON body when there is one and it is an object (request.get_json with
silent), and the query parameters. -/
structure HttpRequest where
  method : String
  jsonBody : Option (List (String × Doc))
  args : List (String × String)

/-- A response body: the empty string of the preflight reply, or a JSON
object. -/
inductive HttpBody where
  | empty
  | json (fields : List (String × Doc))

/-- Python dict.get with default None, as the null document value. -/
def jsonGet (es : List (String × Doc)) (k : String) : Doc :=
  (List.lookup k es).getD (Doc.scalar SVal.null)

/-- The CORS headers of the chat handler
(src/exampleSite/tools/ask-docs/serverless-chat/main.py lines 34-39). -/
def chatHeaders : List (String × String) :=
  [("Access-Control-Allow-Origin", "*"),
   ("Access-Control-Allow-Methods", "GET"),
   ("Access-Control-Allow-Headers", "Content-Type"),
   ("Access-Control-Max-Age", "3600")]

/-- The CORS headers of the summarization handler
(src/exampleSite/tools/ask-docs/serverless-summarization/main.py
lines 23-28). -/
def summHeaders : List (String × String) :=
  [("Access-Control-Allow-Origin", "*"),
   ("Access-Control-Allow-Methods", "GET, POST"),
   ("Access-Control-Allow-Headers", "Content-Type"),
   ("Access-Control-Max-Age", "3600")]

/-- Model of the chat handler start (serverless-chat/main.py lines 32-74).
The retrieval chain - vector search plus chat completion, external services -
is the oracle argument, a function of the question and the product filter.
An OPTIONS request gets the empty 204 preflight reply; any other method gets
a 200 with a single-key JSON object holding the answer string. -/
def ServerlessChat_start (oracle : Doc → Doc → String) (req : HttpRequest) :
    HttpBody × Nat × List (String × String) :=
  if req.method == "OPTIONS" then (.empty, 204, chatHeaders)
  else
    let question : Doc :=
      match req.jsonBody with
      | some es => if !es.isEmpty then jsonGet es "query" else
          Doc.scalar (SVal.str ((List.lookup "query" req.args).getD "What is Hugo?"))
      | none => Doc.scalar (SVal.str ((List.lookup "query" req.args).getD "What is Hugo?"))
    let productFilter : Doc :=
      match req.jsonBody with
      | some es => if !es.isEmpty then jsonGet es "productFilter" else
          ((List.lookup "productFilter" req.args).map (fun s => Doc.scalar (SVal.str s))).getD
            (Doc.scalar SVal.null)
      | none =>
          ((List.lookup "productFilter" req.args).map (fun s => Doc.scalar (SVal.str s))).getD
            (Doc.scalar SVal.null)
    (.json [("answer", Doc.scalar (SVal.str (oracle question productFilter)))], 200, chatHeaders)

/-- Model of the summarization handler start
(serverless-summarization/main.py lines 21-46), with the summarization chain
as the oracle. -/
def ServerlessSummarization_start (oracle : Doc → String) (req : HttpRequest) :
    HttpBody × Nat × List (String × String) :=
  if req.method == "OPTIONS" then (.empty, 204, summHeaders)
  else
    let articleContext : Doc :=
      match req.jsonBody with
      | some es => if !es.isEmpty then jsonGet es "context" else
          Doc.scalar (SVal.str ((List.lookup "context" req.args).getD
            "There is no article to summarize."))
      | none => Doc.scalar (SVal.str ((List.lookup "context" req.args).getD
          "There is no article to summarize."))
    (.json [("summarization", Doc.scalar (SVal.str (oracle articleContext)))], 200, summHeaders)

/-! ## Helper lemmas -/

theorem lookup_mem {l : List (Nat × String)} {i : Nat} {b : String}
    (h : List.lookup i l = some b) : (i, b) ∈ l := by
  induction l with
  | nil => simp [List.lookup] at h
  | cons p rest ih =>
    obtain ⟨k, v⟩ := p
    by_cases hk : i = k
    · subst hk
      simp [List.lookup] at h
      simp [h]
    · have hk' : (i == k) = false := beq_eq_false_iff_ne.mpr hk
      simp [List.lookup, hk'] at h
      exact List.mem_cons_of_mem _ (ih h)

theorem lookup_eq_none {l : List (Nat × String)} {i : Nat}
    (h : ∀ p ∈ l, p.1 ≠ i) : List.lookup i l = none := by
  induction l with
  | nil => rfl
  | cons p rest ih =>
    obtain ⟨k, v⟩ := p
    have hk : ¬ (i = k) := fun he => h (k, v) (List.mem_cons_self _ _) he.symm
    have hk' : (i == k) = false := beq_eq_false_iff_ne.mpr hk
    simp only [List.lookup, hk']
    exact ih fun p hp => h p (List.mem_cons_of_mem _ hp)

theorem mapEntriesOpt_congr {f f' : String → Nat → Option Doc}
    {es : List (String × Nat)} (h : ∀ k j, (k, j) ∈ es → f k j = f' k j) :
    mapEntriesOpt f es = mapEntriesOpt f' es := by
  induction es with
  | nil => rfl
  | cons p rest ih =>
    obtain ⟨k, j⟩ := p
    simp only [mapEntriesOpt]
    rw [h k j (List.mem_cons_self _ _), ih fun k' j' hm => h k' j' (List.mem_cons_of_mem _ hm)]

theorem mapItemsOpt_congr {f f' : Nat → Option Doc} {xs : List Nat}
    (h : ∀ j ∈ xs, f j = f' j) : mapItemsOpt f xs = mapItemsOpt f' xs := by
  induction xs with
  | nil => rfl
  | cons j rest ih =>
    simp only [mapItemsOpt]
    rw [h j (List.mem_cons_self _ _), ih fun j' hm => h j' (List.mem_cons_of_mem _ hm)]

theorem get?_cons_concat {α : Type} (l : List α) (x : α) (t : List α) :
    (l ++ x :: t).get? l.length = some x := by
  have h1 : l ++ x :: t = (l ++ [x]) ++ t := by simp
  have h2 : l.length < (l ++ [x]).length := by simp
  rw [h1, List.get?_append h2, List.get?_concat_length]

theorem getD_of_get? {l : Graph} {i : Nat} {nd d : Node} (h : l.get? i = some nd) :
    l.getD i d = nd := by
  rw [List.getD_eq_get?, h]
  rfl

theorem rankedBy_of_rankedByB {g : Graph} {rank : Nat → Nat}
    (h : rankedByB g rank = true) : RankedBy g rank := by
  intro i hi j hj
  have h1 := (List.all_eq_true.mp h) i (List.mem_range.mpr hi)
  exact of_decide_eq_true ((List.all_eq_true.mp h1) j hj)

/-- The key fact behind the diamond claim: on a graph admitting a rank
function (hence acyclic), the stub walk started below any visited map whose
recorded identities all have rank above the current node agrees with the
plain full expansion, in particular it inserts no stub. -/
theorem walk_eq_expand_aux (g : Graph) (rank : Nat → Nat) (hR : RankedBy g rank) :
    ∀ fuel i visited, (∀ p ∈ visited, rank i < rank p.1) →
      insert_circular_reference_stubs g fuel i visited = expandAll g fuel i := by
  intro fuel
  induction fuel with
  | zero => intro i visited _; rfl
  | succ fuel ih =>
    intro i visited hv
    have hlk : List.lookup i visited = none := by
      apply lookup_eq_none
      intro p hp he
      have hvp := hv p hp
      rw [he] at hvp
      exact lt_irrefl _ hvp
    simp only [insert_circular_reference_stubs, expandAll, hlk]
    cases hg : g.get? i with
    | none => rfl
    | some nd =>
      have hi : i < g.length := by
        by_contra hcon
        rw [List.get?_eq_none.mpr (Nat.le_of_not_lt hcon)] at hg
        exact absurd hg (by simp)
      have hnd : g.getD i (Node.scalar SVal.null) = nd := getD_of_get? hg
      have hch : ∀ j ∈ childIds nd, rank j < rank i := by
        rw [← hnd]
        exact hR i hi
      cases nd with
      | scalar v => rfl
      | map es =>
        simp only
        congr 1
        apply mapEntriesOpt_congr
        intro k j hkj
        apply ih
        intro p hp
        rcases List.mem_cons.mp hp with hpe | hold
        · rw [hpe]
          exact hch j (by simp [childIds]; exact ⟨k, hkj⟩)
        · exact lt_trans (hch j (by simp [childIds]; exact ⟨k, hkj⟩)) (hv p hold)
      | seq xs =>
        simp only
        congr 1
        apply mapItemsOpt_congr
        intro j hj
        apply ih
        intro p hp
        exact lt_trans (hch j hj) (hv p hp)

/-! ## Claims -/

/-- C6: whenever the walk reaches a node whose identity is a key of the
current visited map, it returns exactly the stub mapping built from the name
recorded there - a dollar-ref path into components/schemas plus the fixed
description - independently of the graph, so in particular without recursing
into any children; and a node that is neither a Mapping nor a Sequence is
returned unchanged. -/
theorem claim_C6 :
    (∀ (g : Graph) (fuel i : Nat) (visited : List (Nat × String)) (name : String),
      List.lookup i visited = some name →
      insert_circular_reference_stubs g (fuel + 1) i visited = some (stubDoc name)) ∧
    (∀ (g : Graph) (fuel i : Nat) (visited : List (Nat × String)) (v : SVal),
      List.lookup i visited = none → g.get? i = some (Node.scalar v) →
      insert_circular_reference_stubs g (fuel + 1) i visited = some (Doc.scalar v)) := by
  constructor
  · intro g fuel i visited name h
    simp [insert_circular_reference_stubs, h]
  · intro g fuel i visited v h hg
    simp only [insert_circular_reference_stubs, h]
    rw [hg]

theorem claim_C6_witness :
    insert_circular_reference_stubs [Node.map [("k", 0)]] 3 0 [(0, "A")] =
      some (stubDoc "A") ∧
    insert_circular_reference_stubs [Node.scalar (SVal.str "s")] 3 0 [] =
      some (Doc.scalar (SVal.str "s")) :=
  ⟨claim_C6.1 [Node.map [("k", 0)]] 2 0 [(0, "A")] "A" rfl,
   claim_C6.2 [Node.scalar (SVal.str "s")] 2 0 [] (SVal.str "s") rfl rfl⟩

/-- C2: on any acyclic graph - acyclicity witnessed by a rank function that
strictly decreases along every edge, the arena form of stating that no node
is its own descendant - the stub walk from any root with the empty visited
map coincides with the plain full expansion.  Hence a node reached several
times along non-overlapping paths (a diamond) is fully expanded at every
occurrence and no stub is inserted anywhere: a node is stubbed only when it
is its own ancestor on the current path, never merely because it was visited
elsewhere. -/
theorem claim_C2 (g : Graph) (rank : Nat → Nat) (hR : RankedBy g rank)
    (fuel i : Nat) :
    insert_circular_reference_stubs g fuel i [] = expandAll g fuel i :=
  walk_eq_expand_aux g rank hR fuel i [] (by simp)

theorem claim_C2_witness :
    RankedBy diamondGraph diamondRank ∧
    insert_circular_reference_stubs diamondGraph 10 0 [] = expandAll diamondGraph 10 0 ∧
    expandAll diamondGraph 10 0 = some (Doc.map
      [("left", Doc.map [("a", Doc.map [("x", Doc.scalar (SVal.str "v"))])]),
       ("right", Doc.map [("b", Doc.map [("x", Doc.scalar (SVal.str "v"))])])]) := by
  have hRk : RankedBy diamondGraph diamondRank := rankedBy_of_rankedByB (by decide)
  exact ⟨hRk, claim_C2 diamondGraph diamondRank hRk 10 0, rfl⟩

/-- One-step unfolding equation of the walk, for controlled rewriting. -/
theorem walk_unfold (g : Graph) (fuel i : Nat) (visited : List (Nat × String)) :
    insert_circular_reference_stubs g (fuel + 1) i visited =
      match List.lookup i visited with
      | some name => some (stubDoc name)
      | none =>
        match g.get? i with
        | none => none
        | some (Node.map es) =>
          (mapEntriesOpt (fun k j =>
            insert_circular_reference_stubs g fuel j ((i, k) :: visited)) es).map Doc.map
        | some (Node.seq xs) =>
          (mapItemsOpt (fun j =>
            insert_circular_reference_stubs g fuel j visited) xs).map Doc.seq
        | some (Node.scalar v) => some (Doc.scalar v) := rfl

/-- A single-entry mapping is never the stub shape. -/
theorem isStubDoc_single (k : String) (d : Doc) : isStubDoc (Doc.map [(k, d)]) = false := by
  cases d with
  | scalar v => cases v <;> rfl
  | map es => rfl
  | seq xs => rfl

theorem ringVis_succ (i : Nat) : ringVis (i + 1) = (i, ringKey i) :: ringVis i := by
  simp [ringVis, List.range_succ]

theorem lookup_ringVis_ge {i i' : Nat} (h : i ≤ i') :
    List.lookup i' (ringVis i) = none := by
  induction i with
  | zero => rfl
  | succ i ih =>
    rw [ringVis_succ]
    simp only [List.lookup, beq_eq_false_iff_ne.mpr (by omega : i' ≠ i)]
    exact ih (by omega)

theorem lookup_ringVis_zero {i : Nat} (h : 1 ≤ i) :
    List.lookup 0 (ringVis i) = some (ringKey 0) := by
  induction i with
  | zero => omega
  | succ i ih =>
    rw [ringVis_succ]
    by_cases h0 : i = 0
    · subst h0
      rfl
    · simp only [List.lookup, beq_eq_false_iff_ne.mpr (by omega : (0 : Nat) ≠ i)]
      exact ih (by omega)

theorem ringGraph_get? {n i : Nat} (h : i < n) :
    (ringGraph n).get? i = some (Node.map [(ringKey i, (i + 1) % n)]) := by
  rw [ringGraph, List.get?_map, List.get?_range h]
  rfl

/-- Unfolding of the walk one step into a ring from node i: with m ring nodes
left before the cycle closes, the walk produces the m-deep nest ending in the
single stub. -/
theorem ring_walk (n : Nat) : ∀ m i, 1 ≤ m → i + m = n →
    insert_circular_reference_stubs (ringGraph n) (m + 1) i (ringVis i) =
      some (ringDoc m i) := by
  intro m
  induction m with
  | zero => intro i h1 _; omega
  | succ m ih =>
    intro i h1 h2
    have hi : i < n := by omega
    have hlk : List.lookup i (ringVis i) = none := lookup_ringVis_ge (le_refl i)
    rw [walk_unfold]
    simp only [hlk, ringGraph_get? hi, mapEntriesOpt, ← ringVis_succ]
    by_cases hm : m = 0
    · subst hm
      have hmod : (i + 1) % n = 0 := by
        have hin : i + 1 = n := by omega
        rw [hin]
        exact Nat.mod_self n
      rw [hmod, walk_unfold]
      have hz : List.lookup 0 (ringVis (i + 1)) = some (ringKey 0) :=
        lookup_ringVis_zero (by omega)
      simp only [hz]
      rfl
    · have hmod : (i + 1) % n = i + 1 := Nat.mod_eq_of_lt (by omega)
      rw [hmod, ih (i + 1) (by omega) (by omega)]
      rfl

theorem countStubs_ringDoc : ∀ m i, countStubs (ringDoc m i) = 1 := by
  intro m
  induction m with
  | zero => intro i; rfl
  | succ m ih =>
    intro i
    have heq : ringDoc (m + 1) i = Doc.map [(ringKey i, ringDoc m (i + 1))] := rfl
    rw [heq, countStubs, isStubDoc_single]
    simp [countStubsEntries, ih]

/-- C1 (amended): for the canonical pure-Mapping reference cycle of any
length n, with n of at least 1 - node 0 referencing itself when n is 1 - the
walk terminates (fuel n plus 1 suffices) and its output contains exactly one
stub, the one for the single cycle-closing edge back to node 0; the cycle is
unfolded exactly once around.  As stated over all documents the claim fails:
a cycle passing only through Sequence nodes is never recorded in the visited
map and the walk diverges, see the counterexample. -/
theorem claim_C1 (n : Nat) (h : 1 ≤ n) :
    StubWalkTerminates (ringGraph n) 0 ∧
    insert_circular_reference_stubs (ringGraph n) (n + 1) 0 [] =
      some (ringDoc n 0) ∧
    countStubs (ringDoc n 0) = 1 := by
  have hw := ring_walk n n 0 h (by omega)
  have h0 : ringVis 0 = [] := rfl
  rw [h0] at hw
  refine ⟨⟨n + 1, ?_⟩, hw, countStubs_ringDoc n 0⟩
  rw [hw]
  rfl

theorem claim_C1_witness :
    StubWalkTerminates (ringGraph 3) 0 ∧
    insert_circular_reference_stubs (ringGraph 3) 4 0 [] = some (ringDoc 3 0) ∧
    countStubs (ringDoc 3 0) = 1 :=
  claim_C1 3 (by decide)

theorem seqLoop_walk_none : ∀ fuel,
    insert_circular_reference_stubs seqLoopGraph fuel 0 [] = none := by
  intro fuel
  induction fuel with
  | zero => rfl
  | succ fuel ih =>
    have hg : seqLoopGraph.get? 0 = some (Node.seq [0]) := rfl
    rw [walk_unfold]
    simp only [List.lookup, hg, mapItemsOpt, ih]
    rfl

/-- C1 counterexample: the document whose single node is a Sequence
containing itself - a reference cycle of length 1 - makes the walk recurse
forever: no amount of fuel lets it return, because a Sequence identity is
never recorded in the visited map.  This refutes the claim that the walk
terminates on every Document containing a reference cycle. -/
theorem claim_C1_counterexample : ¬ StubWalkTerminates seqLoopGraph 0 := by
  rintro ⟨fuel, h⟩
  rw [seqLoop_walk_none fuel] at h
  simp at h

/-- One-step unfolding equation of the resolution pass. -/
theorem replace_refs_unfold (root : Doc) (fuel : Nat) (d : Doc) :
    replace_refs root (fuel + 1) d =
      match isRefNode d with
      | some p =>
        match lookupPath root p with
        | none => .error RErr.unresolvable
        | some t => replace_refs root fuel t
      | none =>
        match d with
        | .map es => (mapEntriesE (fun v => replace_refs root fuel v) es).map Doc.map
        | .seq xs => (mapItemsE (fun v => replace_refs root fuel v) xs).map Doc.seq
        | .scalar v => .ok (.scalar v) := rfl

mutual

/-- A reference-free document resolves to itself with fuel at least its
size. -/
theorem replace_refs_noRefs (root : Doc) (d : Doc) (h : noRefs d = true) :
    ∀ fuel, sizeD d ≤ fuel → replace_refs root fuel d = .ok d := by
  cases d with
  | scalar v =>
    intro fuel hf
    cases fuel with
    | zero => simp [sizeD] at hf
    | succ f => rfl
  | map es =>
    intro fuel hf
    cases fuel with
    | zero => simp [sizeD] at hf
    | succ f =>
      simp only [noRefs, Bool.and_eq_true, Option.isNone_iff_eq_none] at h
      rw [replace_refs_unfold]
      simp only [h.1]
      rw [replace_refs_noRefsEntries root es h.2 f
        (by simp [sizeD] at hf; omega)]
      rfl
  | seq xs =>
    intro fuel hf
    cases fuel with
    | zero => simp [sizeD] at hf
    | succ f =>
      have hrn : isRefNode (.seq xs) = none := rfl
      rw [replace_refs_unfold]
      simp only [hrn]
      rw [replace_refs_noRefsItems root xs h f (by simp [sizeD] at hf; omega)]
      rfl

theorem replace_refs_noRefsEntries (root : Doc) (es : List (String × Doc))
    (h : noRefsEntries es = true) :
    ∀ fuel, sizeEntries es ≤ fuel →
      mapEntriesE (fun v => replace_refs root fuel v) es = .ok es := by
  cases es with
  | nil => intro fuel _; rfl
  | cons p rest =>
    intro fuel hf
    obtain ⟨k, v⟩ := p
    simp only [noRefsEntries, Bool.and_eq_true] at h
    simp only [sizeEntries] at hf
    simp only [mapEntriesE]
    rw [replace_refs_noRefs root v h.1 fuel (by omega),
      replace_refs_noRefsEntries root rest h.2 fuel (by omega)]

theorem replace_refs_noRefsItems (root : Doc) (xs : List Doc)
    (h : noRefsItems xs = true) :
    ∀ fuel, sizeItems xs ≤ fuel →
      mapItemsE (fun v => replace_refs root fuel v) xs = .ok xs := by
  cases xs with
  | nil => intro fuel _; rfl
  | cons v rest =>
    intro fuel hf
    simp only [noRefsItems, Bool.and_eq_true] at h
    simp only [sizeItems] at hf
    simp only [mapItemsE]
    rw [replace_refs_noRefs root v h.1 fuel (by omega),
      replace_refs_noRefsItems root rest h.2 fuel (by omega)]

end

mutual

/-- Arena loading only appends. -/
theorem toA_prefix (d : Doc) (a : Graph) : ∃ t, (toA d a).2 = a ++ t := by
  cases d with
  | scalar v => exact ⟨[Node.scalar v], rfl⟩
  | map es =>
    obtain ⟨t, ht⟩ := toAEntries_prefix es a
    exact ⟨t ++ [Node.map (toAEntries es a).1], by simp [toA, ht]⟩
  | seq xs =>
    obtain ⟨t, ht⟩ := toAItems_prefix xs a
    exact ⟨t ++ [Node.seq (toAItems xs a).1], by simp [toA, ht]⟩

theorem toAEntries_prefix (es : List (String × Doc)) (a : Graph) :
    ∃ t, (toAEntries es a).2 = a ++ t := by
  cases es with
  | nil => exact ⟨[], by simp [toAEntries]⟩
  | cons p rest =>
    obtain ⟨k, d⟩ := p
    obtain ⟨t1, ht1⟩ := toA_prefix d a
    obtain ⟨t2, ht2⟩ := toAEntries_prefix rest (toA d a).2
    exact ⟨t1 ++ t2, by simp only [toAEntries]; rw [ht2, ht1, List.append_assoc]⟩

theorem toAItems_prefix (xs : List Doc) (a : Graph) :
    ∃ t, (toAItems xs a).2 = a ++ t := by
  cases xs with
  | nil => exact ⟨[], by simp [toAItems]⟩
  | cons d rest =>
    obtain ⟨t1, ht1⟩ := toA_prefix d a
    obtain ⟨t2, ht2⟩ := toAItems_prefix rest (toA d a).2
    exact ⟨t1 ++ t2, by simp only [toAItems]; rw [ht2, ht1, List.append_assoc]⟩

end

mutual

/-- Walking a tree freshly loaded into an arena returns the tree itself:
identities are assigned in postorder, so every identity in the visited map
(an ancestor, added after this subtree would be) is at least the length of
the arena after this subtree, hence never hit inside it. -/
theorem walkTree_doc (d : Doc) (a afinal t : Graph)
    (hpre : (toA d a).2 ++ t = afinal)
    (visited : List (Nat × String))
    (hv : ∀ p ∈ visited, (toA d a).2.length ≤ p.1) :
    ∀ fuel, sizeD d ≤ fuel →
      insert_circular_reference_stubs afinal fuel (toA d a).1 visited = some d := by
  cases d with
  | scalar v =>
    intro fuel hf
    cases fuel with
    | zero => simp [sizeD] at hf
    | succ f =>
      simp only [toA] at hpre hv ⊢
      rw [walk_unfold]
      have hlk : List.lookup a.length visited = none := by
        apply lookup_eq_none
        intro p hp he
        have := hv p hp
        simp at this
        omega
      have hget : afinal.get? a.length = some (Node.scalar v) := by
        rw [← hpre, List.append_assoc]
        exact get?_cons_concat a _ t
      simp only [hlk, hget]
  | map es =>
    intro fuel hf
    cases fuel with
    | zero => simp [sizeD] at hf
    | succ f =>
      have hf' : sizeEntries es ≤ f := by simp [sizeD] at hf; omega
      simp only [toA] at hpre hv ⊢
      rw [walk_unfold]
      have hlk : List.lookup (toAEntries es a).2.length visited = none := by
        apply lookup_eq_none
        intro p hp he
        have := hv p hp
        simp at this
        omega
      have hget : afinal.get? (toAEntries es a).2.length =
          some (Node.map (toAEntries es a).1) := by
        rw [← hpre, List.append_assoc]
        exact get?_cons_concat _ _ t
      simp only [hlk, hget]
      rw [walkTree_entries es a afinal
        ⟨Node.map (toAEntries es a).1 :: t, by rw [← hpre]; simp⟩
        (toAEntries es a).2.length (le_refl _) visited
        (fun p hp => by have := hv p hp; simp at this; omega) f hf']
      rfl
  | seq xs =>
    intro fuel hf
    cases fuel with
    | zero => simp [sizeD] at hf
    | succ f =>
      have hf' : sizeItems xs ≤ f := by simp [sizeD] at hf; omega
      simp only [toA] at hpre hv ⊢
      rw [walk_unfold]
      have hlk : List.lookup (toAItems xs a).2.length visited = none := by
        apply lookup_eq_none
        intro p hp he
        have := hv p hp
        simp at this
        omega
      have hget : afinal.get? (toAItems xs a).2.length =
          some (Node.seq (toAItems xs a).1) := by
        rw [← hpre, List.append_assoc]
        exact get?_cons_concat _ _ t
      simp only [hlk, hget]
      rw [walkTree_items xs a afinal
        ⟨Node.seq (toAItems xs a).1 :: t, by rw [← hpre]; simp⟩ visited
        (fun p hp => by have := hv p hp; simp at this; omega) f hf']
      rfl

theorem walkTree_entries (es : List (String × Doc)) (a afinal : Graph)
    (hpre : ∃ t, (toAEntries es a).2 ++ t = afinal)
    (i : Nat) (hi : (toAEntries es a).2.length ≤ i)
    (visited : List (Nat × String))
    (hv : ∀ p ∈ visited, (toAEntries es a).2.length ≤ p.1) :
    ∀ fuel, sizeEntries es ≤ fuel →
      mapEntriesOpt (fun k j =>
        insert_circular_reference_stubs afinal fuel j ((i, k) :: visited))
        (toAEntries es a).1 = some es := by
  cases es with
  | nil =>
    intro fuel _
    simp [toAEntries, mapEntriesOpt]
  | cons p rest =>
    intro fuel hf
    obtain ⟨k, d1⟩ := p
    obtain ⟨t0, hpre0⟩ := hpre
    simp only [toAEntries] at hpre0 hi hv ⊢
    simp only [mapEntriesOpt]
    obtain ⟨t2, ht2⟩ := toAEntries_prefix rest (toA d1 a).2
    have hlen1 : (toA d1 a).2.length ≤ (toAEntries rest (toA d1 a).2).2.length := by
      rw [ht2]
      simp
    have hf1 : sizeD d1 ≤ fuel := by simp [sizeEntries] at hf; omega
    have hf2 : sizeEntries rest ≤ fuel := by simp [sizeEntries] at hf; omega
    rw [walkTree_doc d1 a afinal (t2 ++ t0)
      (by rw [← hpre0, ht2]; simp) ((i, k) :: visited)
      (fun p hp => by
        rcases List.mem_cons.mp hp with he | hm
        · rw [he]
          exact le_trans hlen1 hi
        · exact le_trans hlen1 (hv p hm)) fuel hf1]
    rw [walkTree_entries rest (toA d1 a).2 afinal ⟨t0, hpre0⟩ i hi visited hv fuel hf2]

theorem walkTree_items (xs : List Doc) (a afinal : Graph)
    (hpre : ∃ t, (toAItems xs a).2 ++ t = afinal)
    (visited : List (Nat × String))
    (hv : ∀ p ∈ visited, (toAItems xs a).2.length ≤ p.1) :
    ∀ fuel, sizeItems xs ≤ fuel →
      mapItemsOpt (fun j =>
        insert_circular_reference_stubs afinal fuel j visited)
        (toAItems xs a).1 = some xs := by
  cases xs with
  | nil =>
    intro fuel _
    simp [toAItems, mapItemsOpt]
  | cons d1 rest =>
    intro fuel hf
    obtain ⟨t0, hpre0⟩ := hpre
    simp only [toAItems] at hpre0 hv ⊢
    simp only [mapItemsOpt]
    obtain ⟨t2, ht2⟩ := toAItems_prefix rest (toA d1 a).2
    have hlen1 : (toA d1 a).2.length ≤ (toAItems rest (toA d1 a).2).2.length := by
      rw [ht2]
      simp
    have hf1 : sizeD d1 ≤ fuel := by simp [sizeItems] at hf; omega
    have hf2 : sizeItems rest ≤ fuel := by simp [sizeItems] at hf; omega
    rw [walkTree_doc d1 a afinal (t2 ++ t0)
      (by rw [← hpre0, ht2]; simp) visited
      (fun p hp => le_trans hlen1 (hv p hp)) fuel hf1]
    rw [walkTree_items rest (toA d1 a).2 afinal ⟨t0, hpre0⟩ visited hv fuel hf2]

end

/-- The stub walk over a freshly parsed document value is the identity. -/
theorem runWalkTree_id (d : Doc) : runWalkTree d = some d := by
  unfold runWalkTree
  exact walkTree_doc d [] (toA d []).2 [] (by simp) []
    (by intro p hp; simp at hp) (sizeD d) (le_refl _)

/-- C5 (amended): for every acyclic Document D - acyclicity taken as the
resolution pass converging - whose flattened output R is free of Reference
Pointers, flattening is idempotent: the pipeline sends D to R and sends R to
R again (any fuel of at least the size of R), and R has no remaining
pointers by hypothesis.  The unamended claim is refuted by the
counterexample: for an acyclic D in which a single-key dollar-ref Mapping
has a Mapping value, resolving that value manufactures a fresh Reference
Pointer in the output, so the output is not pointer-free and a second
flattening changes it. -/
theorem claim_C5 (D R : Doc) (fuel : Nat)
    (h1 : replace_refs D fuel D = .ok R) (h2 : noRefs R = true) :
    flattenPipe fuel D = some R ∧
    ∀ fuel2, sizeD R ≤ fuel2 → flattenPipe fuel2 R = some R := by
  constructor
  · unfold flattenPipe
    rw [h1]
    exact runWalkTree_id R
  · intro fuel2 hf2
    unfold flattenPipe
    rw [replace_refs_noRefs R R h2 fuel2 hf2]
    exact runWalkTree_id R

theorem claim_C5_witness :
    replace_refs
      (Doc.map [("components", Doc.map
        [("A", Doc.map [("$ref", Doc.scalar (SVal.str "#/components/B"))]),
         ("B", Doc.scalar (SVal.str "x"))])]) 10
      (Doc.map [("components", Doc.map
        [("A", Doc.map [("$ref", Doc.scalar (SVal.str "#/components/B"))]),
         ("B", Doc.scalar (SVal.str "x"))])]) =
      .ok (Doc.map [("components", Doc.map
        [("A", Doc.scalar (SVal.str "x")), ("B", Doc.scalar (SVal.str "x"))])]) ∧
    noRefs (Doc.map [("components", Doc.map
      [("A", Doc.scalar (SVal.str "x")), ("B", Doc.scalar (SVal.str "x"))])]) = true ∧
    (flattenPipe 10 (Doc.map [("components", Doc.map
        [("A", Doc.map [("$ref", Doc.scalar (SVal.str "#/components/B"))]),
         ("B", Doc.scalar (SVal.str "x"))])]) =
      some (Doc.map [("components", Doc.map
        [("A", Doc.scalar (SVal.str "x")), ("B", Doc.scalar (SVal.str "x"))])]) ∧
    ∀ fuel2, sizeD (Doc.map [("components", Doc.map
        [("A", Doc.scalar (SVal.str "x")), ("B", Doc.scalar (SVal.str "x"))])]) ≤ fuel2 →
      flattenPipe fuel2 (Doc.map [("components", Doc.map
        [("A", Doc.scalar (SVal.str "x")), ("B", Doc.scalar (SVal.str "x"))])]) =
        some (Doc.map [("components", Doc.map
          [("A", Doc.scalar (SVal.str "x")), ("B", Doc.scalar (SVal.str "x"))])])) :=
  ⟨rfl, rfl, claim_C5 _ _ 10 rfl rfl⟩

/-- C5 counterexample: idemCexDoc is acyclic (its resolution converges), yet
its flattened output still contains a Reference Pointer and flattening it
again yields a different document, refuting both parts of the claim as
stated. -/
theorem claim_C5_counterexample :
    flattenPipe 20 idemCexDoc = some idemCexOnce ∧
    flattenPipe 20 idemCexOnce = some idemCexTwice ∧
    noRefs idemCexOnce = false ∧
    idemCexTwice ≠ idemCexOnce := by
  refine ⟨rfl, rfl, rfl, ?_⟩
  intro h
  have h2 := congrArg (navigate ["a"]) h
  rw [show navigate ["a"] idemCexTwice = some (Doc.scalar (SVal.str "hello")) from rfl,
    show navigate ["a"] idemCexOnce =
      some (Doc.map [("$ref", Doc.scalar (SVal.str "#/c"))]) from rfl] at h2
  exact absurd h2 (by simp)

/-- C3 (amended): a run of preprocess_openapi_spec that fails before the
output file is opened - unsupported input extension, or unresolvable
reference - leaves the output file untouched, and no run ever writes a
partial document on failure; but the unsupported-output-extension error is
raised only inside the with-open block, after the output file has already
been opened in write mode and thereby created or truncated, so that error
leaves behind an empty output file, refuting the claim that no failing run
modifies the output file. -/
theorem claim_C3 (inPath outPath : String) (parsed : Doc) (fuel : Nat)
    (out : RunOutcome)
    (h : preprocess_openapi_spec inPath outPath parsed fuel = some out) :
    ((out.result = .error PErr.unsupportedInput ∨
      out.result = .error PErr.unresolvableRef) →
      out.outputOpened = false ∧ out.outputWritten = none) ∧
    (out.result = .error PErr.unsupportedOutput →
      out.outputOpened = true ∧ out.outputWritten = none) ∧
    (out.result = .ok () →
      out.outputOpened = true ∧ out.outputWritten.isSome = true) := by
  unfold preprocess_openapi_spec at h
  by_cases h1 : supportedInputExt (pyLower (splitext inPath).2) = true
  · rw [if_pos h1] at h
    split at h
    · obtain rfl := Option.some.inj h
      simp
    · exact absurd h (by simp)
    · split at h
      · exact absurd h (by simp)
      · split at h
        · obtain rfl := Option.some.inj h
          simp
        · split at h
          · obtain rfl := Option.some.inj h
            simp
          · obtain rfl := Option.some.inj h
            simp
  · rw [if_neg h1] at h
    obtain rfl := Option.some.inj h
    simp

theorem claim_C3_witness :
    (RunOutcome.mk (.error PErr.unsupportedInput) false none).outputOpened = false ∧
    (RunOutcome.mk (.error PErr.unsupportedInput) false none).outputWritten = none :=
  (claim_C3 "spec.txt" "out.json" (Doc.scalar SVal.null) 1
    (RunOutcome.mk (.error PErr.unsupportedInput) false none) rfl).1 (Or.inl rfl)

/-- C3 counterexample: a run with a valid yaml input and a txt output path
fails with the unsupported-output error, yet its output file has been opened
for writing (created or truncated): a failing run that does modify the
output file. -/
theorem claim_C3_counterexample :
    preprocess_openapi_spec "in.yaml" "out.txt" (Doc.scalar SVal.null) 1 =
      some (RunOutcome.mk (.error PErr.unsupportedOutput) true none) := rfl

/-- C7: the loading stage raises the unsupported-format error exactly for
input paths whose extension, lowered, is none of yml, yaml, json - in which
case nothing is written to the output - and never raises it for the three
supported extensions. -/
theorem claim_C7 (inPath outPath : String) (parsed : Doc) (fuel : Nat) :
    (supportedInputExt (pyLower (splitext inPath).2) = false →
      preprocess_openapi_spec inPath outPath parsed fuel =
        some (RunOutcome.mk (.error PErr.unsupportedInput) false none)) ∧
    (supportedInputExt (pyLower (splitext inPath).2) = true →
      ∀ out, preprocess_openapi_spec inPath outPath parsed fuel = some out →
        out.result ≠ .error PErr.unsupportedInput) := by
  constructor
  · intro h1
    unfold preprocess_openapi_spec
    rw [if_neg (by simp [h1])]
  · intro h1 out h
    unfold preprocess_openapi_spec at h
    rw [if_pos h1] at h
    split at h
    · obtain rfl := Option.some.inj h
      simp
    · exact absurd h (by simp)
    · split at h
      · exact absurd h (by simp)
      · split at h
        · obtain rfl := Option.some.inj h
          simp
        · split at h
          · obtain rfl := Option.some.inj h
            simp
          · obtain rfl := Option.some.inj h
            simp

theorem claim_C7_witness :
    preprocess_openapi_spec "spec.txt" "out.json" (Doc.scalar SVal.null) 1 =
      some (RunOutcome.mk (.error PErr.unsupportedInput) false none) ∧
    (RunOutcome.mk (.ok ()) true (some (Doc.scalar SVal.null))).result ≠
      .error PErr.unsupportedInput :=
  ⟨(claim_C7 "spec.txt" "out.json" (Doc.scalar SVal.null) 1).1 rfl,
   (claim_C7 "spec.yaml" "out.json" (Doc.scalar SVal.null) 1).2 rfl
     (RunOutcome.mk (.ok ()) true (some (Doc.scalar SVal.null))) rfl⟩

/-- C4: evaluating the modelled serializer calls of lines 53 and 55 on the
two-key document with keys b then a.  The yaml.dump call of line 55 passes
no sort_keys argument, so the serializer default alphabetizes the mapping
keys: the output keys are a then b, not the encounter order b then a,
contradicting the claimed order preservation (the sibling script
update-prod-release-frontmatter.py line 59 shows the repository passing
sort_keys explicitly when order must be kept).  The json.dump call of line
53 preserves insertion order as claimed. -/
theorem claim_C4 :
    yaml_dump_line55 (Doc.map [("b", Doc.scalar (SVal.int 1)),
      ("a", Doc.scalar (SVal.int 2))]) =
      Doc.map [("a", Doc.scalar (SVal.int 2)), ("b", Doc.scalar (SVal.int 1))] ∧
    json_dump_line53 (Doc.map [("b", Doc.scalar (SVal.int 1)),
      ("a", Doc.scalar (SVal.int 2))]) =
      Doc.map [("b", Doc.scalar (SVal.int 1)), ("a", Doc.scalar (SVal.int 2))] :=
  ⟨rfl, rfl⟩

theorem setKey_lookup_self (l : List (String × Doc)) (k : String) (v : Doc) :
    List.lookup k (setKey l k v) = some v := by
  induction l with
  | nil => simp [setKey, List.lookup]
  | cons p rest ih =>
    obtain ⟨k', v'⟩ := p
    by_cases hk : k' = k
    · subst hk
      simp [setKey, List.lookup]
    · have h1 : (k' == k) = false := beq_eq_false_iff_ne.mpr hk
      have h2 : (k == k') = false := beq_eq_false_iff_ne.mpr (Ne.symm hk)
      simp [setKey, List.lookup, h1, h2, ih]

theorem setKey_lookup_other (l : List (String × Doc)) (k k' : String) (v : Doc)
    (h : k' ≠ k) : List.lookup k' (setKey l k v) = List.lookup k' l := by
  induction l with
  | nil => simp [setKey, List.lookup, beq_eq_false_iff_ne.mpr h]
  | cons p rest ih =>
    obtain ⟨k0, v0⟩ := p
    by_cases hk : k0 = k
    · subst hk
      have h1 : (k' == k0) = false := beq_eq_false_iff_ne.mpr h
      simp [setKey, List.lookup, h1]
    · have h1 : (k0 == k) = false := beq_eq_false_iff_ne.mpr hk
      by_cases hk' : k' = k0
      · subst hk'
        simp [setKey, List.lookup, h1]
      · have h2 : (k' == k0) = false := beq_eq_false_iff_ne.mpr hk'
        simp [setKey, List.lookup, h1, h2, ih]

/-- C9: when the frontmatter has a cascade mapping, update_frontmatter
returns the frontmatter with only the cascade value replaced - the new
cascade has major, minor and patch set to the version components and latest
set to true, while every other key inside cascade and every other top-level
key keeps its previous value - and this is what main writes back; when the
frontmatter has no cascade key the function exits with code 1 (modelled as
the exitOne error) and the file is not written. -/
theorem claim_C9 (fm : List (String × Doc)) (major minor patch : Int) :
    (∀ c, List.lookup "cascade" fm = some (Doc.map c) →
      ∃ c', update_frontmatter fm major minor patch =
          .ok (setKey fm "cascade" (Doc.map c')) ∧
        frontmatterMainWrite fm major minor patch =
          some (setKey fm "cascade" (Doc.map c')) ∧
        List.lookup "major" c' = some (.scalar (.int major)) ∧
        List.lookup "minor" c' = some (.scalar (.int minor)) ∧
        List.lookup "patch" c' = some (.scalar (.int patch)) ∧
        List.lookup "latest" c' = some (.scalar (.bool true)) ∧
        (∀ k, k ≠ "major" → k ≠ "minor" → k ≠ "patch" → k ≠ "latest" →
          List.lookup k c' = List.lookup k c) ∧
        (∀ k, k ≠ "cascade" →
          List.lookup k (setKey fm "cascade" (Doc.map c')) = List.lookup k fm) ∧
        List.lookup "cascade" (setKey fm "cascade" (Doc.map c')) =
          some (Doc.map c')) ∧
    (List.lookup "cascade" fm = none →
      update_frontmatter fm major minor patch = .error FmErr.exitOne ∧
      frontmatterMainWrite fm major minor patch = none) := by
  constructor
  · intro c hc
    refine ⟨setKey (setKey (setKey (setKey c "major" (.scalar (.int major)))
      "minor" (.scalar (.int minor))) "patch" (.scalar (.int patch)))
      "latest" (.scalar (.bool true)), ?_, ?_, ?_, ?_, ?_, ?_, ?_, ?_, ?_⟩
    · unfold update_frontmatter
      rw [hc]
    · unfold frontmatterMainWrite update_frontmatter
      rw [hc]
      rfl
    · rw [setKey_lookup_other _ _ _ _ (by decide),
        setKey_lookup_other _ _ _ _ (by decide),
        setKey_lookup_other _ _ _ _ (by decide), setKey_lookup_self]
    · rw [setKey_lookup_other _ _ _ _ (by decide),
        setKey_lookup_other _ _ _ _ (by decide), setKey_lookup_self]
    · rw [setKey_lookup_other _ _ _ _ (by decide), setKey_lookup_self]
    · rw [setKey_lookup_self]
    · intro k h1 h2 h3 h4
      rw [setKey_lookup_other _ _ _ _ h4, setKey_lookup_other _ _ _ _ h3,
        setKey_lookup_other _ _ _ _ h2, setKey_lookup_other _ _ _ _ h1]
    · intro k hk
      rw [setKey_lookup_other _ _ _ _ hk]
    · rw [setKey_lookup_self]
  · intro h
    constructor
    · unfold update_frontmatter
      rw [h]
    · unfold frontmatterMainWrite update_frontmatter
      rw [h]
      rfl

theorem claim_C9_witness :
    (∃ c', update_frontmatter [("cascade", Doc.map [])] 2 3 4 =
        .ok (setKey [("cascade", Doc.map [])] "cascade" (Doc.map c')) ∧
      frontmatterMainWrite [("cascade", Doc.map [])] 2 3 4 =
        some (setKey [("cascade", Doc.map [])] "cascade" (Doc.map c')) ∧
      List.lookup "major" c' = some (.scalar (.int 2)) ∧
      List.lookup "minor" c' = some (.scalar (.int 3)) ∧
      List.lookup "patch" c' = some (.scalar (.int 4)) ∧
      List.lookup "latest" c' = some (.scalar (.bool true)) ∧
      (∀ k, k ≠ "major" → k ≠ "minor" → k ≠ "patch" → k ≠ "latest" →
        List.lookup k c' = List.lookup k ([] : List (String × Doc))) ∧
      (∀ k, k ≠ "cascade" →
        List.lookup k (setKey [("cascade", Doc.map [])] "cascade" (Doc.map c')) =
          List.lookup k [("cascade", Doc.map [])]) ∧
      List.lookup "cascade" (setKey [("cascade", Doc.map [])] "cascade" (Doc.map c')) =
        some (Doc.map c')) ∧
    (update_frontmatter [] 2 3 4 = .error FmErr.exitOne ∧
      frontmatterMainWrite [] 2 3 4 = none) :=
  ⟨(claim_C9 [("cascade", Doc.map [])] 2 3 4).1 [] rfl,
   (claim_C9 [] 2 3 4).2 rfl⟩

theorem isDigit_toNat {c : Char} (h : c.isDigit = true) :
    48 ≤ c.toNat ∧ c.toNat ≤ 57 := by
  simp [Char.isDigit] at h
  obtain ⟨h1, h2⟩ := h
  constructor
  · simpa [Char.toNat, UInt32.le_def, BitVec.le_def] using h1
  · simpa [Char.toNat, UInt32.le_def, BitVec.le_def] using h2

theorem toUpper_of_isDigit {c : Char} (h : c.isDigit = true) : c.toUpper = c := by
  obtain ⟨_, h2⟩ := isDigit_toNat h
  simp only [Char.toUpper]
  rw [if_neg]
  omega

theorem isWhitespace_of_ge {c : Char} (h : 48 ≤ c.toNat) :
    c.isWhitespace = false := by
  simp only [Char.isWhitespace]
  have hs : c ≠ ' ' := by intro hc; subst hc; exact absurd h (by decide)
  have ht : c ≠ '\t' := by intro hc; subst hc; exact absurd h (by decide)
  have hr : c ≠ '\x0d' := by intro hc; subst hc; exact absurd h (by decide)
  have hn : c ≠ '\n' := by intro hc; subst hc; exact absurd h (by decide)
  simp [hs, ht, hr, hn]

theorem dropWhile_all_false {p : Char → Bool} {l : List Char}
    (h : ∀ c ∈ l, p c = false) : l.dropWhile p = l := by
  cases l with
  | nil => rfl
  | cons c t => simp [List.dropWhile, h c (List.mem_cons_self _ _)]

theorem map_id_of_fix {f : Char → Char} {l : List Char}
    (h : ∀ c ∈ l, f c = c) : l.map f = l := by
  induction l with
  | nil => rfl
  | cons c t ih =>
    simp [h c (List.mem_cons_self _ _), ih fun c hc => h c (List.mem_cons_of_mem _ hc)]

/-- Every character of a normalized version string is a digit, a dot, or X. -/
theorem isNormVersion_chars {v : String} (h : isNormVersion v = true) :
    ∀ c ∈ v.data, c.isDigit = true ∨ c = '.' ∨ c = 'X' := by
  unfold isNormVersion at h
  split at h
  case h_2 => exact absurd h (by simp)
  case h_1 r2 heq =>
    simp only [Bool.and_eq_true, beq_iff_eq] at h
    obtain ⟨⟨_, _⟩, h3⟩ := h
    intro c hc
    have hsplit : v.data.takeWhile Char.isDigit ++ v.data.dropWhile Char.isDigit =
      v.data := List.takeWhile_append_dropWhile _ _
    rw [← hsplit] at hc
    rcases List.mem_append.mp hc with h1 | h2
    · exact Or.inl (List.mem_takeWhile_imp h1)
    · rw [heq] at h2
      rcases List.mem_cons.mp h2 with rfl | h2'
      · exact Or.inr (Or.inl rfl)
      · have hsplit2 : r2.takeWhile Char.isDigit ++ r2.dropWhile Char.isDigit = r2 :=
          List.takeWhile_append_dropWhile _ _
        rw [← hsplit2] at h2'
        rcases List.mem_append.mp h2' with h3' | h4
        · exact Or.inl (List.mem_takeWhile_imp h3')
        · rw [h3] at h4
          rcases List.mem_cons.mp h4 with rfl | h5
          · exact Or.inr (Or.inl rfl)
          · rcases List.mem_cons.mp h5 with rfl | h6
            · exact Or.inr (Or.inr rfl)
            · exact absurd h6 (List.not_mem_nil _)

/-- A normalized version string is a fixed point of strip-then-upper: it has
no whitespace to strip and no lowercase letter to upper. -/
theorem pyStripUpper_fix {v : String} (h : isNormVersion v = true) :
    pyUpper (pyStrip v) = v := by
  have hall := isNormVersion_chars h
  have hws : ∀ c ∈ v.data, c.isWhitespace = false := by
    intro c hc
    rcases hall c hc with hd | rfl | rfl
    · exact isWhitespace_of_ge (isDigit_toNat hd).1
    · rfl
    · rfl
  have hup : ∀ c ∈ v.data, c.toUpper = c := by
    intro c hc
    rcases hall c hc with hd | rfl | rfl
    · exact toUpper_of_isDigit hd
    · rfl
    · rfl
  have h1 : v.data.dropWhile Char.isWhitespace = v.data := dropWhile_all_false hws
  have h2 : (v.data.reverse.dropWhile Char.isWhitespace) = v.data.reverse :=
    dropWhile_all_false fun c hc => hws c (List.mem_reverse.mp hc)
  unfold pyStrip pyUpper
  simp only [h1, h2, List.reverse_reverse]
  rw [map_id_of_fix hup]

/-- When some row's first column matches the version after strip and upper,
the duplicate scan reports it (rows up to there being nonempty). -/
theorem findDup_true {version : String} {rows : List Row}
    (hrows : ∀ r ∈ rows, r ≠ [])
    (hmem : ∃ r ∈ rows, pyUpper (pyStrip (r.headD "")) = version) :
    findDup version rows = .ok true := by
  induction rows with
  | nil => simp at hmem
  | cons r rest ih =>
    cases r with
    | nil => exact absurd rfl (hrows [] (List.mem_cons_self _ _))
    | cons c0 rtail =>
      simp only [findDup, col, List.get?]
      by_cases hm : pyUpper (pyStrip c0) = version
      · simp [hm]
      · have hb : (pyUpper (pyStrip c0) == version) = false :=
          beq_eq_false_iff_ne.mpr hm
        simp only [hb, Bool.false_eq_true, if_false]
        apply ih (fun r hr => hrows r (List.mem_cons_of_mem _ hr))
        obtain ⟨r', hr', hv'⟩ := hmem
        rcases List.mem_cons.mp hr' with rfl | hmem'
        · exact absurd hv' (by simpa using hm)
        · exact ⟨r', hmem', hv'⟩

/-- C10: when some row's first column, stripped and uppercased, equals the
normalized requested version, the script exits 0 without rewriting the file
- the duplicate scan runs before any row is changed or written; and running
the script twice with the same version modifies the file at most once: a run
that rewrote the file inserted the version row at position 1, so the next
run finds it and exits 0 untouched. -/
theorem claim_C10 (rows : List Row) (version : String)
    (hrows : ∀ r ∈ rows, r ≠ []) (hver : isNormVersion version = true) :
    ((∃ r ∈ rows, pyUpper (pyStrip (r.headD "")) = version) →
      update_supported_release_table rows version = .exited 0 none) ∧
    (∀ rows2, update_supported_release_table rows version = .exited 0 (some rows2) →
      update_supported_release_table rows2 version = .exited 0 none) := by
  constructor
  · intro hmem
    unfold update_supported_release_table
    rw [findDup_true hrows hmem]
  · intro rows2 h
    unfold update_supported_release_table at h
    cases hd : findDup version rows with
    | error e => rw [hd] at h; exact absurd h (by simp)
    | ok b =>
      rw [hd] at h
      cases b with
      | true => exact absurd h (by simp)
      | false =>
        cases hf : flipLastYesRev rows.tail.reverse with
        | error e => rw [hf] at h; exact absurd h (by simp)
        | ok revTail =>
          rw [hf] at h
          simp only [TableOutcome.exited.injEq, Option.some.inj] at h
          obtain ⟨-, h2⟩ := h
          have h2' := Option.some.inj h2
          subst h2'
          unfold update_supported_release_table
          have e3 : col [version, "GA", "YES"] 0 = .ok version := rfl
          have e4 : (pyUpper (pyStrip version) == version) = true := by
            rw [pyStripUpper_fix hver]
            exact beq_self_eq_true version
          cases rows with
          | nil =>
            have e12 : insertAt1 (reassemble [] revTail.reverse)
                [version, "GA", "YES"] = [[version, "GA", "YES"]] := rfl
            rw [e12]
            simp only [findDup, e3, e4, if_true]
          | cons hd0 tl =>
            cases hc0 : col hd0 0 with
            | error e =>
              rw [show findDup version (hd0 :: tl) =
                  .error () from by simp [findDup, hc0]] at hd
              exact absurd hd (by simp)
            | ok c0 =>
              by_cases hm : (pyUpper (pyStrip c0) == version) = true
              · rw [show findDup version (hd0 :: tl) =
                    .ok true from by simp [findDup, hc0, hm]] at hd
                exact absurd hd (by simp)
              · have hb : (pyUpper (pyStrip c0) == version) = false := by
                  simpa using hm
                have e12 : insertAt1 (reassemble (hd0 :: tl) revTail.reverse)
                    [version, "GA", "YES"] =
                    hd0 :: [version, "GA", "YES"] :: revTail.reverse := rfl
                rw [e12]
                simp only [findDup, hc0, hb, e3, e4, Bool.false_eq_true,
                  if_false, if_true]

theorem claim_C10_witness :
    update_supported_release_table
      [["Version", "Status", "Supported"], ["1.2.X", "GA", "YES"]] "1.2.X" =
      .exited 0 none ∧
    update_supported_release_table
      [["Version", "Status", "Supported"], ["1.2.X", "GA", "YES"],
       ["1.1.X", "GA", "NO"]] "1.2.X" = .exited 0 none :=
  ⟨(claim_C10 [["Version", "Status", "Supported"], ["1.2.X", "GA", "YES"]]
      "1.2.X" (by decide) (by decide)).1 (by decide),
   (claim_C10 [["Version", "Status", "Supported"], ["1.1.X", "GA", "YES"]]
      "1.2.X" (by decide) (by decide)).2
      [["Version", "Status", "Supported"], ["1.2.X", "GA", "YES"],
       ["1.1.X", "GA", "NO"]] rfl⟩

/-- C8: for every request and any behaviour of the external retrieval and
summarization chains, both handlers reply to an OPTIONS preflight with an
empty body and status 204, and to every other method with status 200 and a
JSON body holding exactly the single key answer (chat) or summarization
(summarization) with a string value; and every response of either handler,
the preflight reply included, carries the Access-Control-Allow-Origin header
with the wildcard value. -/
theorem claim_C8 (oracle : Doc → Doc → String) (oracle2 : Doc → String)
    (req : HttpRequest) :
    (req.method = "OPTIONS" →
      ServerlessChat_start oracle req = (.empty, 204, chatHeaders) ∧
      ServerlessSummarization_start oracle2 req = (.empty, 204, summHeaders)) ∧
    (req.method ≠ "OPTIONS" →
      (∃ s, ServerlessChat_start oracle req =
        (.json [("answer", Doc.scalar (SVal.str s))], 200, chatHeaders)) ∧
      (∃ s, ServerlessSummarization_start oracle2 req =
        (.json [("summarization", Doc.scalar (SVal.str s))], 200, summHeaders))) ∧
    ("Access-Control-Allow-Origin", "*") ∈ (ServerlessChat_start oracle req).2.2 ∧
    ("Access-Control-Allow-Origin", "*") ∈
      (ServerlessSummarization_start oracle2 req).2.2 := by
  have hceq : ∀ b, (b = true ∨ b = false) := fun b => by cases b <;> simp
  refine ⟨?_, ?_, ?_, ?_⟩
  · intro hm
    have hb : (req.method == "OPTIONS") = true := beq_iff_eq.mpr hm
    constructor
    · unfold ServerlessChat_start
      rw [if_pos hb]
    · unfold ServerlessSummarization_start
      rw [if_pos hb]
  · intro hm
    have hb : (req.method == "OPTIONS") = false := beq_eq_false_iff_ne.mpr hm
    constructor
    · unfold ServerlessChat_start
      rw [if_neg (by simp [hb])]
      exact ⟨_, rfl⟩
    · unfold ServerlessSummarization_start
      rw [if_neg (by simp [hb])]
      exact ⟨_, rfl⟩
  · have hhd : (ServerlessChat_start oracle req).2.2 = chatHeaders := by
      unfold ServerlessChat_start
      rcases hceq (req.method == "OPTIONS") with hb | hb
      · rw [if_pos hb]
      · rw [if_neg (by simp [hb])]
    rw [hhd]
    simp [chatHeaders]
  · have hhd : (ServerlessSummarization_start oracle2 req).2.2 = summHeaders := by
      unfold ServerlessSummarization_start
      rcases hceq (req.method == "OPTIONS") with hb | hb
      · rw [if_pos hb]
      · rw [if_neg (by simp [hb])]
    rw [hhd]
    simp [summHeaders]

theorem claim_C8_witness :
    (ServerlessChat_start (fun _ _ => "ans") (HttpRequest.mk "OPTIONS" none []) =
      (.empty, 204, chatHeaders) ∧
     ServerlessSummarization_start (fun _ => "sum")
       (HttpRequest.mk "OPTIONS" none []) = (.empty, 204, summHeaders)) ∧
    (∃ s, ServerlessChat_start (fun _ _ => "ans")
        (HttpRequest.mk "GET" none [("query", "hi")]) =
      (.json [("answer", Doc.scalar (SVal.str s))], 200, chatHeaders)) :=
  ⟨(claim_C8 (fun _ _ => "ans") (fun _ => "sum")
      (HttpRequest.mk "OPTIONS" none [])).1 rfl,
   ((claim_C8 (fun _ _ => "ans") (fun _ => "sum")
      (HttpRequest.mk "GET" none [("query", "hi")])).2.1 (by decide)).1⟩

end MiloDocs
